import Mathlib

/-!
Verification of the X1 validator earnings pipeline
(`src/fetch-total-validator-earnings.js`, `src/csvWriter.js`).

The JavaScript source is shallowly embedded here:
- JS numbers that carry monetary quantities are modelled as exact rationals
  (`ℚ`); `Number.prototype.toFixed(n)` is modelled as rounding to `n` decimal
  places (`toFixed` below).  Parsing a fixed-decimal string back with
  `parseFloat` recovers the same rational, so `parseFloat(r.xntAmount)` is
  modelled as the identity on the stored rational.
- Unix timestamps are integers (`ℤ`); the script stores second-granularity
  timestamps (`Math.floor(Date.now() / 1000)`, `getBlockTime`) and its
  `moment(...).format('YYYY-MM-DD HH:mm:ss')` / `moment(...).unix()`
  round-trip is the identity on whole seconds, so `rewardDate` is kept as
  the resolved integer timestamp.
- The chain client (`Connection`) is an explicit environment `ChainEnv`:
  `getInflationReward` may return a reward object, a null entry, or throw;
  `getBlockTime` may return a timestamp, null, or throw.  Exceptions are
  modelled as explicit `err` constructors, so the `try`/`catch` in the
  source becomes a `match`.
- `Array.prototype.sort` with the comparator
  `(a, b) => moment(a.rewardDate).unix() - moment(b.rewardDate).unix()`
  is, per the ECMAScript specification, a stable sort by the integer key;
  the unique stable ascending-by-key ordering is computed here with
  `List.insertionSort` on the non-strict key order.
-/

namespace X1

/-- Model of JavaScript `x.toFixed(n)` (and of parsing the resulting string
back to a number): round to `n` decimal places, half away upward. -/
def toFixed (n : ℕ) (q : ℚ) : ℚ := (round (q * 10 ^ n) : ℚ) / 10 ^ n

/-- A rational is an `n`-decimal fixed-point value. -/
def HasDecimals (n : ℕ) (q : ℚ) : Prop := ∃ k : ℤ, q = (k : ℚ) / 10 ^ n

/-- One entry of the `getInflationReward` response, as the script reads it:
`reward?.amount` (missing amount modelled as `none`) and
`reward.effectiveSlot` (possibly absent). -/
structure InflationReward where
  amount : Option ℤ
  effectiveSlot : Option ℕ
deriving DecidableEq

/-- Result of `connection.getInflationReward([votePubkey], epoch)` for the
one queried identity: either the (possibly null) reward entry, or a thrown
error caught by the script. -/
inductive QueryResult where
  | ok : Option InflationReward → QueryResult
  | err : String → QueryResult
deriving DecidableEq

/-- Result of `connection.getBlockTime(slot)`: a (possibly null) unix
timestamp, or a thrown error. -/
inductive BlockTimeResult where
  | ok : Option ℤ → BlockTimeResult
  | err : String → BlockTimeResult
deriving DecidableEq

/-- The chain client plus ambient configuration visible to the fetcher:
per-epoch inflation-reward responses, per-slot block times, the current
wall clock (`Math.floor(Date.now() / 1000)`), and the configured fallback
price (`fetchHistoricalPrice` always returns it). -/
structure ChainEnv where
  query : ℕ → QueryResult
  blockTime : ℕ → BlockTimeResult
  now : ℤ
  price : ℚ

/-- One epoch's reward record as built by `fetchSingleEpochReward`, with the
cumulative fields that `main` attaches after sorting (absent until then). -/
structure RewardRecord where
  epoch : ℕ
  rewardDate : ℤ
  xntAmount : ℚ
  priceUSD : ℚ
  valueUSD : ℚ
  cumulativeXNT : Option ℚ := none
  cumulativeUSD : Option ℚ := none
deriving DecidableEq

/-- The fallback timestamp approximation of the source:
`Math.floor(Date.now() / 1000) - ((currentEpoch - epoch) * 24 * 60 * 60)`. -/
def fallbackTimestamp (env : ChainEnv) (currentEpoch epoch : ℕ) : ℤ :=
  env.now - ((currentEpoch : ℤ) - (epoch : ℤ)) * (24 * 60 * 60)

/-- Timestamp resolution inside `fetchSingleEpochReward`: try the real block
time of `effectiveSlot` when present; if the lookup throws, returns null, or
returns the falsy timestamp `0`, fall back to the approximation. -/
def resolveTimestamp (env : ChainEnv) (currentEpoch epoch : ℕ)
    (rw : InflationReward) : ℤ :=
  let fromSlot : Option ℤ :=
    match rw.effectiveSlot with
    | none => none
    | some slot =>
      match env.blockTime slot with
      | BlockTimeResult.err _ => none
      | BlockTimeResult.ok t => t
  match fromSlot with
  | some t => if t = 0 then fallbackTimestamp env currentEpoch epoch else t
  | none => fallbackTimestamp env currentEpoch epoch

/-- `fetchSingleEpochReward` from `src/fetch-total-validator-earnings.js`:
queries one epoch, and returns a record exactly when the query succeeds with
a strictly positive amount; a thrown error, a null entry, a missing amount,
and a non-positive amount all yield `none`.  Mirrors
`reward?.amount > 0`, `amountXNT = reward.amount / 1e9`,
`xntAmount = amountXNT.toFixed(6)`, `priceUSD = priceUSD.toFixed(6)`,
`valueUSD = (amountXNT * priceUSD).toFixed(4)`. -/
def fetchSingleEpochReward (env : ChainEnv) (epoch : ℕ) (currentEpoch : ℕ) :
    Option RewardRecord :=
  match env.query epoch with
  | QueryResult.err _ => none
  | QueryResult.ok none => none
  | QueryResult.ok (some rw) =>
    match rw.amount with
    | none => none
    | some a =>
      if 0 < a then
        let amountXNT : ℚ := (a : ℚ) / 1000000000
        some { epoch := epoch
               rewardDate := resolveTimestamp env currentEpoch epoch rw
               xntAmount := toFixed 6 amountXNT
               priceUSD := toFixed 6 env.price
               valueUSD := toFixed 4 (amountXNT * env.price) }
      else none

/-- Mutable loop state of `fetchRewardsForEpochs`: collected records (pushed
at the end) and the four counters. -/
structure WalkState where
  rewards : List RewardRecord
  processedCount : ℕ
  failedCount : ℕ
  lowEpochFailures : ℕ
  unexpectedFailures : ℕ
deriving DecidableEq

def initialWalkState : WalkState := ⟨[], 0, 0, 0, 0⟩

/-- One iteration of the walk loop body: a null outcome increments
`failedCount` and the `epoch <= 15` / `epoch > 15` bucket; a record is
pushed onto `rewards`; `processedCount` always increments. -/
def walkStep (env : ChainEnv) (currentEpoch : ℕ) (st : WalkState)
    (epoch : ℕ) : WalkState :=
  match fetchSingleEpochReward env epoch currentEpoch with
  | none =>
      { st with
        processedCount := st.processedCount + 1
        failedCount := st.failedCount + 1
        lowEpochFailures :=
          if epoch ≤ 15 then st.lowEpochFailures + 1 else st.lowEpochFailures
        unexpectedFailures :=
          if epoch ≤ 15 then st.unexpectedFailures
          else st.unexpectedFailures + 1 }
  | some r =>
      { st with
        rewards := st.rewards ++ [r]
        processedCount := st.processedCount + 1 }

/-- The `for (let epoch = currentEpoch - 1; epoch >= 0; epoch--)` loop with
its `break` once `processedCount >= maxEpochs` (checked after processing,
only when a limit was given). -/
def walkLoop (env : ChainEnv) (currentEpoch : ℕ) (maxEpochs : Option ℕ) :
    List ℕ → WalkState → WalkState
  | [], st => st
  | e :: rest, st =>
    let st1 := walkStep env currentEpoch st e
    match maxEpochs with
    | some n =>
      if n ≤ st1.processedCount then st1
      else walkLoop env currentEpoch maxEpochs rest st1
    | none => walkLoop env currentEpoch maxEpochs rest st1

/-- The candidate epochs in walk order: `currentEpoch - 1` down to `0`. -/
def descEpochs (currentEpoch : ℕ) : List ℕ := (List.range currentEpoch).reverse

/-- Return value of `fetchRewardsForEpochs`. -/
structure WalkResult where
  rewards : List RewardRecord
  totalEpochsProcessed : ℕ
  failedEpochs : ℕ
  lowEpochFailures : ℕ
  unexpectedFailures : ℕ
  expectedEpochs : ℕ
deriving DecidableEq

/-- `fetchRewardsForEpochs` from the source: walk the epochs descending,
then report the counters with `expectedEpochs = processedCount -
lowEpochFailures`. -/
def fetchRewardsForEpochs (env : ChainEnv) (currentEpoch : ℕ)
    (maxEpochs : Option ℕ) : WalkResult :=
  let st := walkLoop env currentEpoch maxEpochs (descEpochs currentEpoch)
      initialWalkState
  { rewards := st.rewards
    totalEpochsProcessed := st.processedCount
    failedEpochs := st.failedCount
    lowEpochFailures := st.lowEpochFailures
    unexpectedFailures := st.unexpectedFailures
    expectedEpochs := st.processedCount - st.lowEpochFailures }

/-- Comparator key order of `rewards.sort((a, b) =>
moment(a.rewardDate).unix() - moment(b.rewardDate).unix())`. -/
def tsLE (a b : RewardRecord) : Prop := a.rewardDate ≤ b.rewardDate

instance : DecidableRel tsLE :=
  fun a b => inferInstanceAs (Decidable (a.rewardDate ≤ b.rewardDate))

instance : IsTotal RewardRecord tsLE :=
  ⟨fun a b => le_total a.rewardDate b.rewardDate⟩

instance : IsTrans RewardRecord tsLE :=
  ⟨fun _ _ _ hab hbc => le_trans hab hbc⟩

/-- The chronological re-sort of `main` (`rewards.sort(...)`): the unique
stable ascending sort by resolved timestamp, computed by insertion sort. -/
def sortChronological (l : List RewardRecord) : List RewardRecord :=
  List.insertionSort tsLE l

/-- The cumulative-attachment pass of `main` (lines 385-393): a single
forward fold keeping exact running sums (`cumulativeXNT += parseFloat(...)`),
storing each running sum rounded to 6 resp. 4 decimals. -/
def attachCumulativesGo (cx cu : ℚ) : List RewardRecord → List RewardRecord
  | [] => []
  | r :: rest =>
    { r with
      cumulativeXNT := some (toFixed 6 (cx + r.xntAmount))
      cumulativeUSD := some (toFixed 4 (cu + r.valueUSD)) }
      :: attachCumulativesGo (cx + r.xntAmount) (cu + r.valueUSD) rest

/-- `main`'s `rewards.forEach` cumulative pass, started from zero sums. -/
def attachCumulatives (l : List RewardRecord) : List RewardRecord :=
  attachCumulativesGo 0 0 l

/-- The independent cumulative recomputation inside `writeMainCsv`
(`src/csvWriter.js` lines 24-35): the same fold, written separately because
it is a distinct code site whose agreement with `attachCumulatives` is the
refinement obligation. -/
def mainCsvCumulativeGo (cx cu : ℚ) : List RewardRecord → List RewardRecord
  | [] => []
  | r :: rest =>
    { r with
      cumulativeXNT := some (toFixed 6 (cx + r.xntAmount))
      cumulativeUSD := some (toFixed 4 (cu + r.valueUSD)) }
      :: mainCsvCumulativeGo (cx + r.xntAmount) (cu + r.valueUSD) rest

/-- `writeMainCsv`'s `rowsWithCumulative` computation, from zero sums. -/
def writeMainCsvRows (rewards : List RewardRecord) : List RewardRecord :=
  mainCsvCumulativeGo 0 0 rewards

/-- The record sequence `main` hands to the writers: walk, sort
chronologically, attach cumulatives. -/
def pipelineRecords (env : ChainEnv) (currentEpoch : ℕ)
    (maxEpochs : Option ℕ) : List RewardRecord :=
  attachCumulatives
    (sortChronological (fetchRewardsForEpochs env currentEpoch maxEpochs).rewards)

/-- Number of epochs the loop actually attempts: the full range when
unbounded; with a limit `n`, the break fires only after an epoch was
processed, so at least one epoch is attempted whenever the range is
non-empty (`max n 1`), clamped by the range size. -/
def attemptCount (currentEpoch : ℕ) (maxEpochs : Option ℕ) : ℕ :=
  match maxEpochs with
  | none => currentEpoch
  | some n => min currentEpoch (max n 1)

/-- The epochs the loop actually attempts, in walk order. -/
def attemptedEpochs (currentEpoch : ℕ) (maxEpochs : Option ℕ) : List ℕ :=
  (descEpochs currentEpoch).take (attemptCount currentEpoch maxEpochs)

/-- The per-epoch day index used to model `moment(...).startOf('day')` on
second-granularity timestamps. -/
def dayFloor (ts : ℤ) : ℤ := Int.fdiv ts 86400

/-- The tally arguments `main` passes to `writeAnalyticsCsv`. -/
structure FailureTally where
  totalEpochsProcessed : ℕ
  failedEpochs : ℕ
  lowEpochFailures : ℕ
  unexpectedFailures : ℕ
  expectedEpochs : ℕ
deriving DecidableEq

/-- The summary metrics computed by `writeAnalyticsCsv` (lines 73-84).
`avgDaily`/`avgPerEpoch` are `none` exactly when the source emits the
sentinel string `N/A`; the percentage fields hold `0` exactly when the
source emits the sentinel string `0.00`. -/
structure AnalyticsSummary where
  daysCovered : ℤ
  totalXNT : ℚ
  avgDaily : Option ℚ
  totalEpochsWithRewards : ℕ
  percentageWithRewards : ℚ
  percentageExpectedWithRewards : ℚ
  avgPerEpoch : Option ℚ
deriving DecidableEq

/-- `writeAnalyticsCsv`'s metric computation.  With zero records the source
returns early and writes nothing, modelled as `none`; otherwise each
division is guarded exactly as in the source. -/
def analyticsSummary (rewards : List RewardRecord) (t : FailureTally) :
    Option AnalyticsSummary :=
  match rewards with
  | [] => none
  | r0 :: rest =>
    let firstDay := dayFloor r0.rewardDate
    let lastDay := dayFloor (List.getLastD rest r0).rewardDate
    let days : ℤ := (lastDay - firstDay) + 1
    let totalXNT : ℚ := ((r0 :: rest).map (fun r => r.xntAmount)).sum
    let cnt : ℕ := (r0 :: rest).length
    some
      { daysCovered := days
        totalXNT := totalXNT
        avgDaily :=
          if 0 < days then some (toFixed 6 (totalXNT / (days : ℚ))) else none
        totalEpochsWithRewards := cnt
        percentageWithRewards :=
          if 0 < t.totalEpochsProcessed then
            toFixed 2 ((cnt : ℚ) / (t.totalEpochsProcessed : ℚ) * 100)
          else 0
        percentageExpectedWithRewards :=
          if 0 < t.expectedEpochs then
            toFixed 2 ((cnt : ℚ) / (t.expectedEpochs : ℚ) * 100)
          else 0
        avgPerEpoch :=
          if 0 < cnt then some (toFixed 6 (totalXNT / (cnt : ℚ))) else none }

/-- The chronologically sorted walk output, before cumulatives are
attached. -/
def sortedRecords (env : ChainEnv) (c : ℕ) (m : Option ℕ) :
    List RewardRecord :=
  sortChronological (fetchRewardsForEpochs env c m).rewards

/-- Sum of the stored `xntAmount` over records `0..i` of a sequence. -/
def sumXNTUpTo (l : List RewardRecord) (i : ℕ) : ℚ :=
  ((l.take (i + 1)).map (fun r => r.xntAmount)).sum

/-- Sum of the stored `valueUSD` over records `0..i` of a sequence. -/
def sumUSDUpTo (l : List RewardRecord) (i : ℕ) : ℚ :=
  ((l.take (i + 1)).map (fun r => r.valueUSD)).sum

/-- Tie order that the stable chronological sort preserves: among records
with equal resolved timestamps, the one with the larger epoch (pushed
earlier by the descending walk) stays first. -/
def tieEpochDesc (a b : RewardRecord) : Prop :=
  a.rewardDate = b.rewardDate → b.epoch < a.epoch

/-- The reward result carries no effective slot, or the block-time lookup
for its slot throws or returns no timestamp. -/
def blockTimeFailedOrMissing (env : ChainEnv) (rw0 : InflationReward) :
    Prop :=
  rw0.effectiveSlot = none ∨
    ∃ s, rw0.effectiveSlot = some s ∧
      ((∃ msg, env.blockTime s = BlockTimeResult.err msg) ∨
        env.blockTime s = BlockTimeResult.ok none)

/-- The cumulative-field contract of the pipeline: each attached cumulative
equals the running sum of the sorted sequence up to that record (already an
exact 6- resp. 4-decimal value), the running sums are monotonically
non-decreasing, and the records coming out of the walk carry no cumulative
fields yet (they are assigned exactly once, after sorting). -/
def Claim1Property (env : ChainEnv) (c : ℕ) (m : Option ℕ) : Prop :=
  (∀ (i : ℕ) (hi : i < (pipelineRecords env c m).length),
    ((pipelineRecords env c m).get ⟨i, hi⟩).cumulativeXNT =
      some (sumXNTUpTo (sortedRecords env c m) i) ∧
    ((pipelineRecords env c m).get ⟨i, hi⟩).cumulativeUSD =
      some (sumUSDUpTo (sortedRecords env c m) i) ∧
    toFixed 6 (sumXNTUpTo (sortedRecords env c m) i) =
      sumXNTUpTo (sortedRecords env c m) i ∧
    toFixed 4 (sumUSDUpTo (sortedRecords env c m) i) =
      sumUSDUpTo (sortedRecords env c m) i) ∧
  (∀ i j : ℕ, i ≤ j →
    sumXNTUpTo (sortedRecords env c m) i ≤
      sumXNTUpTo (sortedRecords env c m) j ∧
    sumUSDUpTo (sortedRecords env c m) i ≤
      sumUSDUpTo (sortedRecords env c m) j) ∧
  (∀ r ∈ (fetchRewardsForEpochs env c m).rewards,
    r.cumulativeXNT = none ∧ r.cumulativeUSD = none)

/-- Concrete environment: every query succeeds but carries no reward
entry. -/
def envNoRewards : ChainEnv :=
  { query := fun _ => QueryResult.ok none
    blockTime := fun _ => BlockTimeResult.ok none
    now := 1700000000
    price := 1 }

/-- Concrete environment: epoch queries succeed and report a reward object
whose amount is zero (the specification's `Empty` outcome). -/
def envZeroAmount : ChainEnv :=
  { query := fun _ =>
      QueryResult.ok (some { amount := some 0, effectiveSlot := none })
    blockTime := fun _ => BlockTimeResult.ok none
    now := 1700000000
    price := 1 }

/-- Concrete environment: epochs 3 and 5 are rewarded, with effective slots
whose block times coincide, so the two records get equal timestamps. -/
def envTiedTimes : ChainEnv :=
  { query := fun e =>
      if e = 3 ∨ e = 5 then
        QueryResult.ok
          (some { amount := some 1000000000, effectiveSlot := some e })
      else QueryResult.ok none
    blockTime := fun _ => BlockTimeResult.ok (some 500)
    now := 1700000000
    price := 1 }

/-- Concrete environment: every chain query throws. -/
def envAllErr : ChainEnv :=
  { query := fun _ => QueryResult.err "network down"
    blockTime := fun _ => BlockTimeResult.err "network down"
    now := 1700000000
    price := 2 }

/-- Concrete environment: every epoch is rewarded with 5 lamports and no
effective slot. -/
def envRewardNoSlot : ChainEnv :=
  { query := fun _ =>
      QueryResult.ok (some { amount := some 5, effectiveSlot := none })
    blockTime := fun _ => BlockTimeResult.ok none
    now := 1700000000
    price := 2 }

/-- Concrete record used to exercise the analytics computation. -/
def recW : RewardRecord :=
  { epoch := 1
    rewardDate := 86400
    xntAmount := 2
    priceUSD := 1
    valueUSD := 2 }

/-- Concrete tally with zero processed and zero expected epochs, so both
percentage divisors are zero. -/
def tallyW : FailureTally :=
  { totalEpochsProcessed := 0
    failedEpochs := 0
    lowEpochFailures := 0
    unexpectedFailures := 0
    expectedEpochs := 0 }

/-- The analytics summary of `[recW]` under `tallyW`: one covered day,
total 2 XNT, both percentage sentinels. -/
def summaryW : AnalyticsSummary :=
  { daysCovered := 1
    totalXNT := 2
    avgDaily := some 2
    totalEpochsWithRewards := 1
    percentageWithRewards := 0
    percentageExpectedWithRewards := 0
    avgPerEpoch := some 2 }

/-! ### Fixed-point arithmetic lemmas -/

lemma toFixed_hasDecimals (n : ℕ) (q : ℚ) : HasDecimals n (toFixed n q) :=
  ⟨round (q * 10 ^ n), rfl⟩

lemma hasDecimals_zero (n : ℕ) : HasDecimals n 0 := ⟨0, by simp⟩

lemma hasDecimals_add {n : ℕ} {p q : ℚ} (hp : HasDecimals n p)
    (hq : HasDecimals n q) : HasDecimals n (p + q) := by
  obtain ⟨k, hk⟩ := hp
  obtain ⟨m, hm⟩ := hq
  exact ⟨k + m, by rw [hk, hm]; push_cast; ring⟩

lemma toFixed_eq_self {n : ℕ} {q : ℚ} (h : HasDecimals n q) :
    toFixed n q = q := by
  obtain ⟨k, hk⟩ := h
  have hpow : (10 : ℚ) ^ n ≠ 0 := by positivity
  have hmul : q * 10 ^ n = (k : ℚ) := by
    rw [hk]; field_simp
  rw [toFixed, hmul, round_intCast, hk]

lemma toFixed_nonneg {n : ℕ} {q : ℚ} (h : 0 ≤ q) : 0 ≤ toFixed n q := by
  have hq : (0 : ℚ) ≤ q * 10 ^ n := by positivity
  have hround : (0 : ℤ) ≤ round (q * 10 ^ n) := by
    rw [round_eq]
    rw [Int.le_floor]
    push_cast
    linarith
  have : (0 : ℚ) ≤ (round (q * 10 ^ n) : ℚ) := by exact_mod_cast hround
  have hpow : (0 : ℚ) < 10 ^ n := by positivity
  exact div_nonneg this (le_of_lt hpow)

lemma hasDecimals_sum {n : ℕ} {l : List ℚ}
    (h : ∀ x ∈ l, HasDecimals n x) : HasDecimals n l.sum := by
  induction l with
  | nil => simpa using hasDecimals_zero n
  | cons x xs ih =>
    rw [List.sum_cons]
    exact hasDecimals_add (h x (by simp))
      (ih (fun y hy => h y (List.mem_cons_of_mem _ hy)))

/-! ### Walk loop characterization -/

lemma walkStep_processedCount (env : ChainEnv) (c : ℕ) (st : WalkState)
    (e : ℕ) : (walkStep env c st e).processedCount = st.processedCount + 1 := by
  unfold walkStep
  cases fetchSingleEpochReward env e c <;> rfl

lemma walkLoop_none_eq_foldl (env : ChainEnv) (c : ℕ) :
    ∀ (l : List ℕ) (st : WalkState),
      walkLoop env c none l st = List.foldl (walkStep env c) st l := by
  intro l
  induction l with
  | nil => intro st; rfl
  | cons e rest ih => intro st; simp [walkLoop, List.foldl, ih]

lemma walkLoop_some_eq_foldl (env : ChainEnv) (c : ℕ) (n : ℕ) :
    ∀ (l : List ℕ) (st : WalkState),
      walkLoop env c (some n) l st =
        List.foldl (walkStep env c) st
          (l.take (max (n - st.processedCount) 1)) := by
  intro l
  induction l with
  | nil => intro st; simp [walkLoop]
  | cons e rest ih =>
    intro st
    have hproc : (walkStep env c st e).processedCount = st.processedCount + 1 :=
      walkStep_processedCount env c st e
    by_cases hbreak : n ≤ (walkStep env c st e).processedCount
    · have h1 : max (n - st.processedCount) 1 = 1 := by
        rw [hproc] at hbreak; omega
      simp only [walkLoop, hbreak, if_pos, h1, List.take_succ_cons,
        List.take_zero, List.foldl]
    · have hlt : st.processedCount + 1 < n := by rw [hproc] at hbreak; omega
      have h1 : max (n - st.processedCount) 1 = n - st.processedCount := by omega
      have h2 : max (n - (walkStep env c st e).processedCount) 1 =
          n - st.processedCount - 1 := by rw [hproc]; omega
      have h3 : ∃ m, n - st.processedCount = m + 1 ∧
          m = n - st.processedCount - 1 := ⟨n - st.processedCount - 1, by omega⟩
      obtain ⟨m, hm, hm2⟩ := h3
      simp only [walkLoop, hbreak, if_neg, not_false_iff]
      rw [ih (walkStep env c st e), h1, h2, hm, List.take_succ_cons,
        List.foldl_cons, Nat.add_sub_cancel]

lemma walkLoop_eq_foldl_attempted (env : ChainEnv) (c : ℕ)
    (m : Option ℕ) :
    walkLoop env c m (descEpochs c) initialWalkState =
      List.foldl (walkStep env c) initialWalkState (attemptedEpochs c m) := by
  have hlen : (descEpochs c).length ≤ c := by
    simp [descEpochs]
  cases m with
  | none =>
    rw [walkLoop_none_eq_foldl]
    unfold attemptedEpochs attemptCount
    rw [List.take_of_length_le hlen]
  | some n =>
    rw [walkLoop_some_eq_foldl]
    unfold attemptedEpochs attemptCount
    congr 1
    show (descEpochs c).take (max (n - 0) 1) =
      (descEpochs c).take (min c (max n 1))
    rw [Nat.sub_zero, min_comm, ← List.take_take, List.take_of_length_le hlen]

/-! ### Fold invariants of the walk -/

lemma foldl_walkStep_processed (env : ChainEnv) (c : ℕ) :
    ∀ (l : List ℕ) (st : WalkState),
      (List.foldl (walkStep env c) st l).processedCount =
        st.processedCount + l.length := by
  intro l
  induction l with
  | nil => intro st; simp
  | cons e rest ih =>
    intro st
    rw [List.foldl_cons, ih, walkStep_processedCount]
    simp only [List.length_cons]
    omega

lemma foldl_walkStep_failed (env : ChainEnv) (c : ℕ) :
    ∀ (l : List ℕ) (st : WalkState),
      (List.foldl (walkStep env c) st l).failedCount =
        st.failedCount +
          l.countP (fun e => (fetchSingleEpochReward env e c).isNone) := by
  intro l
  induction l with
  | nil => intro st; simp
  | cons e rest ih =>
    intro st
    rw [List.foldl_cons, ih, List.countP_cons]
    cases h : fetchSingleEpochReward env e c <;>
      simp [walkStep, h] <;> omega

lemma foldl_walkStep_low (env : ChainEnv) (c : ℕ) :
    ∀ (l : List ℕ) (st : WalkState),
      (List.foldl (walkStep env c) st l).lowEpochFailures =
        st.lowEpochFailures +
          l.countP (fun e =>
            (fetchSingleEpochReward env e c).isNone && decide (e ≤ 15)) := by
  intro l
  induction l with
  | nil => intro st; simp
  | cons e rest ih =>
    intro st
    rw [List.foldl_cons, ih, List.countP_cons]
    by_cases he : e ≤ 15 <;>
      cases h : fetchSingleEpochReward env e c <;>
        simp [walkStep, h, he] <;> omega

lemma foldl_walkStep_unexpected (env : ChainEnv) (c : ℕ) :
    ∀ (l : List ℕ) (st : WalkState),
      (List.foldl (walkStep env c) st l).unexpectedFailures =
        st.unexpectedFailures +
          l.countP (fun e =>
            (fetchSingleEpochReward env e c).isNone && decide (15 < e)) := by
  intro l
  induction l with
  | nil => intro st; simp
  | cons e rest ih =>
    intro st
    rw [List.foldl_cons, ih, List.countP_cons]
    by_cases he : e ≤ 15
    · have hne : ¬ (15 < e) := by omega
      cases h : fetchSingleEpochReward env e c <;>
        simp [walkStep, h, he, hne] <;> omega
    · have hlt2 : 15 < e := by omega
      cases h : fetchSingleEpochReward env e c <;>
        simp [walkStep, h, he, hlt2] <;> omega

lemma foldl_walkStep_rewards (env : ChainEnv) (c : ℕ) :
    ∀ (l : List ℕ) (st : WalkState),
      (List.foldl (walkStep env c) st l).rewards =
        st.rewards ++ l.filterMap (fun e => fetchSingleEpochReward env e c) := by
  intro l
  induction l with
  | nil => intro st; simp
  | cons e rest ih =>
    intro st
    rw [List.foldl_cons, ih, List.filterMap_cons]
    cases h : fetchSingleEpochReward env e c <;> simp [walkStep, h]

/-- Closed-form description of the walker: everything it returns is a
function of the attempted-epoch list. -/
lemma fetchRewardsForEpochs_eq (env : ChainEnv) (c : ℕ) (m : Option ℕ) :
    fetchRewardsForEpochs env c m =
      { rewards := (attemptedEpochs c m).filterMap
          (fun e => fetchSingleEpochReward env e c)
        totalEpochsProcessed := (attemptedEpochs c m).length
        failedEpochs := (attemptedEpochs c m).countP
          (fun e => (fetchSingleEpochReward env e c).isNone)
        lowEpochFailures := (attemptedEpochs c m).countP
          (fun e => (fetchSingleEpochReward env e c).isNone && decide (e ≤ 15))
        unexpectedFailures := (attemptedEpochs c m).countP
          (fun e => (fetchSingleEpochReward env e c).isNone && decide (15 < e))
        expectedEpochs := (attemptedEpochs c m).length -
          (attemptedEpochs c m).countP
            (fun e =>
              (fetchSingleEpochReward env e c).isNone && decide (e ≤ 15)) } := by
  simp only [fetchRewardsForEpochs]
  rw [walkLoop_eq_foldl_attempted]
  rw [foldl_walkStep_processed, foldl_walkStep_failed, foldl_walkStep_low,
    foldl_walkStep_unexpected, foldl_walkStep_rewards]
  simp [initialWalkState]

/-! ### Fetcher output shape -/

/-- Inversion principle for the fetcher: a record is produced exactly from a
successful query with a strictly positive amount, and its fields are the
source's formulas. -/
lemma fetchSingleEpochReward_some (env : ChainEnv) (e c : ℕ)
    (r : RewardRecord) (h : fetchSingleEpochReward env e c = some r) :
    ∃ rw0 : InflationReward, ∃ a : ℤ,
      env.query e = QueryResult.ok (some rw0) ∧
      rw0.amount = some a ∧ 0 < a ∧
      r = { epoch := e
            rewardDate := resolveTimestamp env c e rw0
            xntAmount := toFixed 6 ((a : ℚ) / 1000000000)
            priceUSD := toFixed 6 env.price
            valueUSD := toFixed 4 (((a : ℚ) / 1000000000) * env.price) } := by
  cases hq : env.query e with
  | err msg => simp [fetchSingleEpochReward, hq] at h
  | ok o =>
    cases o with
    | none => simp [fetchSingleEpochReward, hq] at h
    | some rw0 =>
      cases ha : rw0.amount with
      | none => simp [fetchSingleEpochReward, hq, ha] at h
      | some a =>
        by_cases hpos : 0 < a
        · have hfe : fetchSingleEpochReward env e c =
              some { epoch := e
                     rewardDate := resolveTimestamp env c e rw0
                     xntAmount := toFixed 6 ((a : ℚ) / 1000000000)
                     priceUSD := toFixed 6 env.price
                     valueUSD :=
                       toFixed 4 (((a : ℚ) / 1000000000) * env.price) } := by
            simp [fetchSingleEpochReward, hq, ha, hpos]
          rw [hfe] at h
          exact ⟨rw0, a, rfl, ha, hpos, (Option.some_injective _ h).symm⟩
        · have hfe : fetchSingleEpochReward env e c = none := by
            simp [fetchSingleEpochReward, hq, ha, hpos]
          rw [hfe] at h
          exact absurd h (by simp)

/-- Field-level facts about every record the fetcher emits, as needed by the
cumulative-sum claims. -/
lemma fetch_record_props (env : ChainEnv) (e c : ℕ) (r : RewardRecord)
    (h : fetchSingleEpochReward env e c = some r) :
    r.epoch = e ∧ r.cumulativeXNT = none ∧ r.cumulativeUSD = none ∧
      HasDecimals 6 r.xntAmount ∧ 0 ≤ r.xntAmount ∧
      HasDecimals 4 r.valueUSD ∧ (0 ≤ env.price → 0 ≤ r.valueUSD) := by
  obtain ⟨rw0, a, _, _, hpos, hr⟩ := fetchSingleEpochReward_some env e c r h
  subst hr
  refine ⟨rfl, rfl, rfl, toFixed_hasDecimals 6 _, ?_,
    toFixed_hasDecimals 4 _, ?_⟩
  · apply toFixed_nonneg
    have : (0 : ℚ) < (a : ℚ) := by exact_mod_cast hpos
    positivity
  · intro hp
    apply toFixed_nonneg
    have ha2 : (0 : ℚ) ≤ (a : ℚ) := by exact_mod_cast le_of_lt hpos
    positivity

lemma mem_walk_rewards (env : ChainEnv) (c : ℕ) (m : Option ℕ)
    (r : RewardRecord) (h : r ∈ (fetchRewardsForEpochs env c m).rewards) :
    ∃ e, fetchSingleEpochReward env e c = some r := by
  rw [fetchRewardsForEpochs_eq] at h
  simp only [List.mem_filterMap] at h
  obtain ⟨e, _, he⟩ := h
  exact ⟨e, he⟩

/-! ### Order of the collected records -/

/-- The walk pushes records in strictly descending epoch order. -/
lemma walk_rewards_epoch_desc (env : ChainEnv) (c : ℕ) (m : Option ℕ) :
    (fetchRewardsForEpochs env c m).rewards.Pairwise
      (fun a b => b.epoch < a.epoch) := by
  rw [fetchRewardsForEpochs_eq]
  have hdesc : (attemptedEpochs c m).Pairwise (fun a b => b < a) := by
    apply List.Pairwise.sublist (List.take_sublist _ _)
    unfold descEpochs
    rw [List.pairwise_reverse]
    exact List.pairwise_lt_range c
  apply List.Pairwise.filterMap (fun e => fetchSingleEpochReward env e c)
    ?_ hdesc
  intro e1 e2 hlt r1 hr1 r2 hr2
  have h1 := (fetch_record_props env e1 c r1 hr1).1
  have h2 := (fetch_record_props env e2 c r2 hr2).1
  rw [h1, h2]
  exact hlt

lemma pairwise_tie_orderedInsert (x : RewardRecord) :
    ∀ (l : List RewardRecord), l.Pairwise tieEpochDesc →
      (∀ y ∈ l, tieEpochDesc x y) →
      (List.orderedInsert tsLE x l).Pairwise tieEpochDesc := by
  intro l
  induction l with
  | nil =>
    intro _ _
    simp [List.orderedInsert]
  | cons y ys ih =>
    intro hl hx
    rw [List.pairwise_cons] at hl
    simp only [List.orderedInsert]
    by_cases hxy : tsLE x y
    · rw [if_pos hxy, List.pairwise_cons]
      exact ⟨hx, List.pairwise_cons.mpr hl⟩
    · rw [if_neg hxy, List.pairwise_cons]
      constructor
      · intro z hz
        rcases (List.mem_orderedInsert tsLE).mp hz with rfl | hz2
        · intro hdate
          exact absurd (le_of_eq hdate.symm) hxy
        · exact hl.1 z hz2
      · exact ih hl.2 (fun z hz => hx z (List.mem_cons_of_mem _ hz))

lemma pairwise_tie_insertionSort :
    ∀ (l : List RewardRecord), l.Pairwise tieEpochDesc →
      (List.insertionSort tsLE l).Pairwise tieEpochDesc := by
  intro l
  induction l with
  | nil => intro _; simp [List.insertionSort]
  | cons x xs ih =>
    intro hl
    rw [List.pairwise_cons] at hl
    simp only [List.insertionSort]
    apply pairwise_tie_orderedInsert
    · exact ih hl.2
    · intro y hy
      exact hl.1 y ((List.perm_insertionSort tsLE xs).mem_iff.mp hy)

/-! ### Cumulative attachment -/

lemma attachCumulativesGo_length :
    ∀ (l : List RewardRecord) (cx cu : ℚ),
      (attachCumulativesGo cx cu l).length = l.length := by
  intro l
  induction l with
  | nil => intro cx cu; rfl
  | cons r rest ih =>
    intro cx cu
    simp [attachCumulativesGo, ih]

lemma attachCumulativesGo_get :
    ∀ (l : List RewardRecord) (cx cu : ℚ) (i : ℕ)
      (hi : i < (attachCumulativesGo cx cu l).length),
      ((attachCumulativesGo cx cu l).get ⟨i, hi⟩).cumulativeXNT =
        some (toFixed 6
          (cx + ((l.take (i + 1)).map (fun r => r.xntAmount)).sum)) ∧
      ((attachCumulativesGo cx cu l).get ⟨i, hi⟩).cumulativeUSD =
        some (toFixed 4
          (cu + ((l.take (i + 1)).map (fun r => r.valueUSD)).sum)) := by
  intro l
  induction l with
  | nil =>
    intro cx cu i hi
    simp [attachCumulativesGo] at hi
  | cons r rest ih =>
    intro cx cu i hi
    cases i with
    | zero =>
      simp [attachCumulativesGo, List.get]
    | succ j =>
      have hj : j <
          (attachCumulativesGo (cx + r.xntAmount) (cu + r.valueUSD)
            rest).length := by
        have := hi
        simp only [attachCumulativesGo, List.length_cons] at this
        omega
      have hget :
          ((attachCumulativesGo cx cu (r :: rest)).get ⟨j + 1, hi⟩) =
            ((attachCumulativesGo (cx + r.xntAmount) (cu + r.valueUSD)
              rest).get ⟨j, hj⟩) := by
        simp only [attachCumulativesGo, List.get_cons_succ]
      rw [hget]
      obtain ⟨h1, h2⟩ := ih (cx + r.xntAmount) (cu + r.valueUSD) j hj
      rw [h1, h2]
      constructor
      · congr 1
        rw [List.take_succ_cons, List.map_cons, List.sum_cons]
        ring_nf
      · congr 1
        rw [List.take_succ_cons, List.map_cons, List.sum_cons]
        ring_nf

lemma attachCumulativesGo_preserves_base :
    ∀ (l : List RewardRecord) (cx cu : ℚ) (r : RewardRecord),
      r ∈ attachCumulativesGo cx cu l →
      ∃ r0 ∈ l, r.xntAmount = r0.xntAmount ∧ r.valueUSD = r0.valueUSD := by
  intro l
  induction l with
  | nil => intro cx cu r hr; simp [attachCumulativesGo] at hr
  | cons x xs ih =>
    intro cx cu r hr
    simp only [attachCumulativesGo, List.mem_cons] at hr
    rcases hr with rfl | hr2
    · exact ⟨x, by simp, rfl, rfl⟩
    · obtain ⟨r0, hr0, h1, h2⟩ := ih _ _ r hr2
      exact ⟨r0, List.mem_cons_of_mem _ hr0, h1, h2⟩

/-! ### Monotone sums of non-negative fixed-point values -/

lemma sum_take_mono (f : RewardRecord → ℚ) :
    ∀ (l : List RewardRecord), (∀ x ∈ l, 0 ≤ f x) →
      ∀ i j, i ≤ j →
        ((l.take i).map f).sum ≤ ((l.take j).map f).sum := by
  intro l
  induction l with
  | nil => intro _ i j _; simp
  | cons x xs ih =>
    intro hf i j hij
    cases i with
    | zero =>
      simp only [List.take_zero, List.map_nil, List.sum_nil]
      apply List.sum_nonneg
      intro y hy
      simp only [List.mem_map] at hy
      obtain ⟨z, hz, rfl⟩ := hy
      exact hf z (List.mem_of_mem_take hz)
    | succ i2 =>
      cases j with
      | zero => omega
      | succ j2 =>
        simp only [List.take_succ_cons, List.map_cons, List.sum_cons]
        exact add_le_add_left
          (ih (fun z hz => hf z (List.mem_cons_of_mem _ hz)) i2 j2
            (by omega)) _

lemma sum_take_hasDecimals (n : ℕ) (f : RewardRecord → ℚ)
    (l : List RewardRecord) (hf : ∀ x ∈ l, HasDecimals n (f x)) (i : ℕ) :
    HasDecimals n (((l.take i).map f).sum) := by
  apply hasDecimals_sum
  intro x hx
  simp only [List.mem_map] at hx
  obtain ⟨z, hz, rfl⟩ := hx
  exact hf z (List.mem_of_mem_take hz)

/-! ### Counting helpers -/

lemma countP_and_split (p q : ℕ → Bool) :
    ∀ l : List ℕ,
      l.countP p =
        l.countP (fun e => p e && q e) + l.countP (fun e => p e && !q e) := by
  intro l
  induction l with
  | nil => simp
  | cons e rest ih =>
    rw [List.countP_cons, List.countP_cons, List.countP_cons]
    cases hp : p e <;> cases hq : q e <;> simp [hp, hq, ih] <;> omega

lemma length_eq_filterMap_add_countP (f : ℕ → Option RewardRecord) :
    ∀ l : List ℕ,
      l.length =
        (l.filterMap f).length + l.countP (fun e => (f e).isNone) := by
  intro l
  induction l with
  | nil => simp
  | cons e rest ih =>
    rw [List.length_cons, List.filterMap_cons, List.countP_cons]
    cases h : f e <;> simp [h, ih] <;> omega

/-! ### Cumulative fields of the attached sequence -/

lemma attachCumulatives_get (l : List RewardRecord) (i : ℕ)
    (hi : i < (attachCumulatives l).length) :
    ((attachCumulatives l).get ⟨i, hi⟩).cumulativeXNT =
      some (toFixed 6 (sumXNTUpTo l i)) ∧
    ((attachCumulatives l).get ⟨i, hi⟩).cumulativeUSD =
      some (toFixed 4 (sumUSDUpTo l i)) := by
  have h := attachCumulativesGo_get l 0 0 i hi
  simpa [sumXNTUpTo, sumUSDUpTo] using h

/-- The cumulative recomputation of `writeMainCsv` agrees, column by
column, with the cumulatives already attached by `main`, for any common
starting accumulators. -/
lemma csvRows_eq_attach_aux :
    ∀ (l : List RewardRecord) (cx cu : ℚ),
      (mainCsvCumulativeGo cx cu (attachCumulativesGo cx cu l)).map
          (fun r => (r.cumulativeXNT, r.cumulativeUSD)) =
        (attachCumulativesGo cx cu l).map
          (fun r => (r.cumulativeXNT, r.cumulativeUSD)) := by
  intro l
  induction l with
  | nil => intro cx cu; rfl
  | cons r rest ih =>
    intro cx cu
    simp only [attachCumulativesGo, mainCsvCumulativeGo, List.map_cons]
    exact congrArg₂ List.cons rfl (ih (cx + r.xntAmount) (cu + r.valueUSD))

/-! ### Claim theorems -/

/-- C1: after the chronological sort, each record's `cumulativeXNT` equals
the running sum of `xntAmount[0..i]` and `cumulativeUSD` the running sum of
`valueUSD[0..i]` (already exact at 6 resp. 4 decimals, so rounding at the
stated fixed precision is the identity on them); both running sums are
monotonically non-decreasing across the sorted sequence; and the cumulative
fields are assigned exactly once, only after sorting (the walk's records
carry none). Under the domain assumption that the configured price is
non-negative. -/
theorem claim1_cumulative_running_sums (env : ChainEnv) (c : ℕ)
    (m : Option ℕ) (hprice : 0 ≤ env.price) : Claim1Property env c m := by
  have hmem : ∀ r ∈ sortedRecords env c m,
      HasDecimals 6 r.xntAmount ∧ 0 ≤ r.xntAmount ∧
        HasDecimals 4 r.valueUSD ∧ 0 ≤ r.valueUSD := by
    intro r hr
    have hr2 : r ∈ (fetchRewardsForEpochs env c m).rewards :=
      ((List.perm_insertionSort tsLE _).mem_iff).mp hr
    obtain ⟨e, he⟩ := mem_walk_rewards env c m r hr2
    obtain ⟨_, _, _, h6, hpos, h4, husd⟩ := fetch_record_props env e c r he
    exact ⟨h6, hpos, h4, husd hprice⟩
  refine ⟨?_, ?_, ?_⟩
  · intro i hi
    have hfix6 : toFixed 6 (sumXNTUpTo (sortedRecords env c m) i) =
        sumXNTUpTo (sortedRecords env c m) i :=
      toFixed_eq_self (sum_take_hasDecimals 6 _ _
        (fun x hx => (hmem x hx).1) (i + 1))
    have hfix4 : toFixed 4 (sumUSDUpTo (sortedRecords env c m) i) =
        sumUSDUpTo (sortedRecords env c m) i :=
      toFixed_eq_self (sum_take_hasDecimals 4 _ _
        (fun x hx => (hmem x hx).2.2.1) (i + 1))
    have hget := attachCumulatives_get (sortedRecords env c m) i hi
    exact ⟨hget.1.trans (congrArg some hfix6),
      hget.2.trans (congrArg some hfix4), hfix6, hfix4⟩
  · intro i j hij
    constructor
    · exact sum_take_mono (fun r => r.xntAmount) (sortedRecords env c m)
        (fun x hx => (hmem x hx).2.1) (i + 1) (j + 1) (by omega)
    · exact sum_take_mono (fun r => r.valueUSD) (sortedRecords env c m)
        (fun x hx => (hmem x hx).2.2.2) (i + 1) (j + 1) (by omega)
  · intro r hr
    obtain ⟨e, he⟩ := mem_walk_rewards env c m r hr
    have h := fetch_record_props env e c r he
    exact ⟨h.2.1, h.2.2.1⟩

/-- Witness for C1 at a concrete environment with price 2 and a two-epoch
walk. -/
theorem claim1_witness :
    (0 : ℚ) ≤ envRewardNoSlot.price ∧ Claim1Property envRewardNoSlot 2 none :=
  ⟨by norm_num [envRewardNoSlot],
   claim1_cumulative_running_sums envRewardNoSlot 2 none
     (by norm_num [envRewardNoSlot])⟩

/-- C2 counterexample: in `envZeroAmount`, epoch 0's query succeeds and
reports a reward whose amount is 0 — the specification's `Empty` outcome —
yet the walk over the single epoch 0 tallies it as a failure
(`failedEpochs = 1`, `lowEpochFailures = 1`), where the claim requires the
tallies to stay unchanged at 0. -/
theorem claim2_counterexample :
    envZeroAmount.query 0 =
      QueryResult.ok (some { amount := some 0, effectiveSlot := none }) ∧
    (fetchRewardsForEpochs envZeroAmount 1 none).failedEpochs = 1 ∧
    (fetchRewardsForEpochs envZeroAmount 1 none).lowEpochFailures = 1 := by
  refine ⟨rfl, ?_, ?_⟩ <;> rfl

/-- C2 amended: the fetcher returns the same null outcome for a successful
query with a missing or non-positive amount as for an errored query, and
the Walker increments `failedTotal` for every attempted epoch whose outcome
is null — so `Empty` epochs are tallied as failures exactly like `Failed`
epochs. -/
theorem claim2_amended (env : ChainEnv) (c : ℕ) (m : Option ℕ) (e : ℕ) :
    (env.query e = QueryResult.ok none →
      fetchSingleEpochReward env e c = none) ∧
    (∀ rw0 : InflationReward, env.query e = QueryResult.ok (some rw0) →
      rw0.amount = none → fetchSingleEpochReward env e c = none) ∧
    (∀ (rw0 : InflationReward) (a : ℤ),
      env.query e = QueryResult.ok (some rw0) → rw0.amount = some a →
      a ≤ 0 → fetchSingleEpochReward env e c = none) ∧
    (fetchRewardsForEpochs env c m).failedEpochs =
      (attemptedEpochs c m).countP
        (fun e2 => (fetchSingleEpochReward env e2 c).isNone) := by
  refine ⟨?_, ?_, ?_, ?_⟩
  · intro hq; simp [fetchSingleEpochReward, hq]
  · intro rw0 hq ha; simp [fetchSingleEpochReward, hq, ha]
  · intro rw0 a hq ha hle
    simp [fetchSingleEpochReward, hq, ha, show ¬ (0 < a) by omega]
  · rw [fetchRewardsForEpochs_eq]

/-- Witness for C2 amended: the zero-amount epoch of `envZeroAmount` is a
null outcome and is counted by the walker's failure tally. -/
theorem claim2_witness :
    envZeroAmount.query 0 =
      QueryResult.ok
        (some { amount := some 0, effectiveSlot := none }) ∧
    ((0 : ℤ) ≤ 0) ∧
    fetchSingleEpochReward envZeroAmount 0 1 = none ∧
    (fetchRewardsForEpochs envZeroAmount 1 none).failedEpochs =
      (attemptedEpochs 1 none).countP
        (fun e2 => (fetchSingleEpochReward envZeroAmount e2 1).isNone) := by
  have h := claim2_amended envZeroAmount 1 none 0
  exact ⟨rfl, le_refl 0,
    h.2.2.1 { amount := some 0, effectiveSlot := none } 0 rfl rfl (le_refl 0),
    h.2.2.2⟩

/-- C3 counterexample: with limit `N = 0` and `currentEpoch = 5` (so at
least `N` candidate epochs exist), the walk still attempts one epoch —
`totalProcessed = 1`, not `N = 0` — because the limit is only checked after
an epoch has been processed. -/
theorem claim3_counterexample :
    (fetchRewardsForEpochs envNoRewards 5 (some 0)).totalEpochsProcessed
      = 1 := by
  rfl

/-- C3 amended: for every positive limit `N ≤ currentEpoch` the walk stops
after exactly `N` attempted epochs; with no limit it attempts the full
range `currentEpoch-1 .. 0`; and in all cases the attempted count is the
number of collected records plus `failedTotal` (which, per the amended C2,
includes the `Empty` epochs). -/
theorem claim3_amended (env : ChainEnv) (c : ℕ) (m : Option ℕ) (n : ℕ) :
    (1 ≤ n → n ≤ c →
      (fetchRewardsForEpochs env c (some n)).totalEpochsProcessed = n) ∧
    (fetchRewardsForEpochs env c none).totalEpochsProcessed = c ∧
    (fetchRewardsForEpochs env c m).totalEpochsProcessed =
      (fetchRewardsForEpochs env c m).rewards.length +
        (fetchRewardsForEpochs env c m).failedEpochs := by
  refine ⟨?_, ?_, ?_⟩
  · intro h1 hc
    rw [fetchRewardsForEpochs_eq]
    show (attemptedEpochs c (some n)).length = n
    simp only [attemptedEpochs, attemptCount, descEpochs]
    rw [List.length_take, List.length_reverse, List.length_range]
    omega
  · rw [fetchRewardsForEpochs_eq]
    show (attemptedEpochs c none).length = c
    simp only [attemptedEpochs, attemptCount, descEpochs]
    rw [List.length_take, List.length_reverse, List.length_range]
    omega
  · rw [fetchRewardsForEpochs_eq]
    exact length_eq_filterMap_add_countP _ (attemptedEpochs c m)

/-- Witness for C3 amended at `N = 3`, `currentEpoch = 5`. -/
theorem claim3_witness :
    (1 ≤ 3) ∧ (3 ≤ 5) ∧
    (fetchRewardsForEpochs envNoRewards 5 (some 3)).totalEpochsProcessed
      = 3 ∧
    (fetchRewardsForEpochs envNoRewards 5 none).totalEpochsProcessed = 5 ∧
    (fetchRewardsForEpochs envNoRewards 5 (some 3)).totalEpochsProcessed =
      (fetchRewardsForEpochs envNoRewards 5 (some 3)).rewards.length +
        (fetchRewardsForEpochs envNoRewards 5 (some 3)).failedEpochs := by
  have h := claim3_amended envNoRewards 5 (some 3) 3
  exact ⟨by decide, by decide, h.1 (by decide) (by decide), h.2.1, h.2.2⟩

/-- C4: a failed (null-outcome) epoch is counted as an early failure iff
its epoch number is at most 15 and as an unexpected failure iff it exceeds
15 — the two buckets partition the failures, so
`failedTotal = earlyFailures + unexpectedFailures` and
`expectedEpochs = totalProcessed - earlyFailures` after every walk. -/
theorem claim4_failure_classification (env : ChainEnv) (c : ℕ)
    (m : Option ℕ) :
    (fetchRewardsForEpochs env c m).failedEpochs =
      (fetchRewardsForEpochs env c m).lowEpochFailures +
        (fetchRewardsForEpochs env c m).unexpectedFailures ∧
    (fetchRewardsForEpochs env c m).expectedEpochs =
      (fetchRewardsForEpochs env c m).totalEpochsProcessed -
        (fetchRewardsForEpochs env c m).lowEpochFailures ∧
    (fetchRewardsForEpochs env c m).lowEpochFailures =
      (attemptedEpochs c m).countP
        (fun e =>
          (fetchSingleEpochReward env e c).isNone && decide (e ≤ 15)) ∧
    (fetchRewardsForEpochs env c m).unexpectedFailures =
      (attemptedEpochs c m).countP
        (fun e =>
          (fetchSingleEpochReward env e c).isNone && decide (15 < e)) := by
  rw [fetchRewardsForEpochs_eq]
  refine ⟨?_, rfl, rfl, rfl⟩
  show (attemptedEpochs c m).countP
      (fun e => (fetchSingleEpochReward env e c).isNone) = _
  rw [countP_and_split (fun e => (fetchSingleEpochReward env e c).isNone)
    (fun e => decide (e ≤ 15))]
  congr 1
  apply List.countP_congr
  intro e _
  by_cases he : e ≤ 15 <;>
    simp [he, show (15 < e ↔ ¬ (e ≤ 15)) by omega]

/-- C5: for a rewarded epoch whose reward carries no effective slot, or
whose block-time lookup throws or returns no timestamp, the record's
timestamp is the approximation `now - (currentEpoch - epoch) * 86400`
seconds; resolution always succeeds — the fetcher returns a record whose
`rewardDate` is that integer, never null and never an error. -/
theorem claim5_fallback_timestamp (env : ChainEnv) (c e : ℕ)
    (rw0 : InflationReward) (a : ℤ)
    (hq : env.query e = QueryResult.ok (some rw0))
    (ha : rw0.amount = some a) (hpos : 0 < a)
    (hfb : blockTimeFailedOrMissing env rw0) :
    fetchSingleEpochReward env e c =
      some { epoch := e
             rewardDate := fallbackTimestamp env c e
             xntAmount := toFixed 6 ((a : ℚ) / 1000000000)
             priceUSD := toFixed 6 env.price
             valueUSD := toFixed 4 (((a : ℚ) / 1000000000) * env.price) } := by
  have hts : resolveTimestamp env c e rw0 = fallbackTimestamp env c e := by
    rcases hfb with hnone | ⟨s, hs, herr⟩
    · simp [resolveTimestamp, hnone]
    · rcases herr with ⟨msg, hmsg⟩ | hok
      · simp [resolveTimestamp, hs, hmsg]
      · simp [resolveTimestamp, hs, hok]
  simp [fetchSingleEpochReward, hq, ha, hpos, hts]

/-- Witness for C5: in `envRewardNoSlot` the reward has no effective slot,
and the fetched record of epoch 0 (current epoch 3) carries the fallback
timestamp. -/
theorem claim5_witness :
    envRewardNoSlot.query 0 =
      QueryResult.ok (some { amount := some 5, effectiveSlot := none }) ∧
    ((0 : ℤ) < 5) ∧
    blockTimeFailedOrMissing envRewardNoSlot
      { amount := some 5, effectiveSlot := none } ∧
    fetchSingleEpochReward envRewardNoSlot 0 3 =
      some { epoch := 0
             rewardDate := fallbackTimestamp envRewardNoSlot 3 0
             xntAmount := toFixed 6 ((5 : ℚ) / 1000000000)
             priceUSD := toFixed 6 envRewardNoSlot.price
             valueUSD :=
               toFixed 4 (((5 : ℚ) / 1000000000) * envRewardNoSlot.price) } := by
  have hfb : blockTimeFailedOrMissing envRewardNoSlot
      { amount := some 5, effectiveSlot := none } := Or.inl rfl
  exact ⟨rfl, by decide, hfb,
    claim5_fallback_timestamp envRewardNoSlot 3 0
      { amount := some 5, effectiveSlot := none } 5 rfl rfl (by decide) hfb⟩

/-- C6: any error thrown by the chain client for a single epoch is caught
inside the fetcher and converted to a null (non-rewarded) outcome, and the
walker's attempted-epoch count is unaffected by errors — in every
environment it equals the attempted-range length, so no single-epoch
failure can abort the run. -/
theorem claim6_errors_contained (env : ChainEnv) (c e : ℕ) (m : Option ℕ)
    (msg : String) (herr : env.query e = QueryResult.err msg) :
    fetchSingleEpochReward env e c = none ∧
    (fetchRewardsForEpochs env c m).totalEpochsProcessed =
      (attemptedEpochs c m).length := by
  constructor
  · simp [fetchSingleEpochReward, herr]
  · rw [fetchRewardsForEpochs_eq]

/-- Witness for C6: the all-throwing environment completes its full
four-epoch walk. -/
theorem claim6_witness :
    envAllErr.query 0 = QueryResult.err "network down" ∧
    fetchSingleEpochReward envAllErr 0 4 = none ∧
    (fetchRewardsForEpochs envAllErr 4 none).totalEpochsProcessed =
      (attemptedEpochs 4 none).length := by
  have h := claim6_errors_contained envAllErr 4 0 none "network down" rfl
  exact ⟨rfl, h.1, h.2⟩

/-- C7 counterexample: in `envTiedTimes` epochs 3 and 5 both resolve to
timestamp 500; the walk collects them in descending order `[5, 3]` and the
stable chronological sort keeps that order, so the record with the larger
epoch comes first — the claim requires the smaller epoch first. -/
theorem claim7_counterexample :
    (sortChronological (fetchRewardsForEpochs envTiedTimes 6 none).rewards).map
        (fun r => (r.epoch, r.rewardDate)) = [(5, 500), (3, 500)] := by
  rfl

/-- C7 amended: after the walk the records are sorted ascending by resolved
timestamp, the order is a permutation of the collected records and is
deterministic (it is a function of them), but ties are broken by original
epoch in descending order: the stable sort preserves the walk's
reverse-epoch insertion order among equal timestamps. -/
theorem claim7_amended (env : ChainEnv) (c : ℕ) (m : Option ℕ) :
    List.Sorted tsLE
      (sortChronological (fetchRewardsForEpochs env c m).rewards) ∧
    (sortChronological (fetchRewardsForEpochs env c m).rewards).Pairwise
      tieEpochDesc ∧
    (sortChronological (fetchRewardsForEpochs env c m).rewards).Perm
      (fetchRewardsForEpochs env c m).rewards := by
  refine ⟨List.sorted_insertionSort tsLE _, ?_,
    List.perm_insertionSort tsLE _⟩
  apply pairwise_tie_insertionSort
  exact @List.Pairwise.imp _ _ tieEpochDesc (fun {a b} h _ => h) _
    (walk_rewards_epoch_desc env c m)

/-- C8 counterexample: with zero records the analytics computation returns
early and produces no summary at all — there are no sentinel-valued summary
fields, contrary to the claim that every summary field is a sentinel. -/
theorem claim8_counterexample :
    analyticsSummary []
      { totalEpochsProcessed := 7, failedEpochs := 3, lowEpochFailures := 2,
        unexpectedFailures := 1, expectedEpochs := 5 } = none := by
  rfl

/-- C8 amended: with zero records the analytics computation is skipped
entirely (early return, nothing computed or written); whenever a summary is
produced, the averages are the `N/A` sentinel exactly when the day divisor
is non-positive, the two percentage metrics are the `0.00` sentinel when
their divisor is zero, the per-epoch divisor is positive by construction,
and the computation is total — it never divides by an unguarded zero,
never produces NaN, and never throws. -/
theorem claim8_amended (rewards : List RewardRecord) (t : FailureTally) :
    analyticsSummary [] t = none ∧
    (∀ s : AnalyticsSummary, analyticsSummary rewards t = some s →
      (s.daysCovered ≤ 0 → s.avgDaily = none) ∧
      (0 < s.daysCovered →
        s.avgDaily = some (toFixed 6 (s.totalXNT / (s.daysCovered : ℚ)))) ∧
      (t.totalEpochsProcessed = 0 → s.percentageWithRewards = 0) ∧
      (t.expectedEpochs = 0 → s.percentageExpectedWithRewards = 0) ∧
      0 < s.totalEpochsWithRewards ∧
      s.avgPerEpoch =
        some (toFixed 6
          (s.totalXNT / (s.totalEpochsWithRewards : ℚ)))) := by
  constructor
  · rfl
  · intro s hs
    cases rewards with
    | nil => simp [analyticsSummary] at hs
    | cons r0 rest =>
      simp only [analyticsSummary, Option.some_inj] at hs
      subst hs
      refine ⟨?_, ?_, ?_, ?_, ?_, ?_⟩
      · intro hd
        simp only at hd ⊢
        rw [if_neg (by omega)]
      · intro hd
        simp only at hd ⊢
        rw [if_pos hd]
      · intro hz
        simp only
        rw [if_neg (by omega)]
      · intro hz
        simp only
        rw [if_neg (by omega)]
      · simp
      · simp only
        rw [if_pos (by simp)]

/-- Witness for C8 amended: the one-record list `[recW]` under the
all-zero tally `tallyW` yields `summaryW`, whose percentage fields are the
sentinels and whose averages are defined. -/
theorem claim8_witness :
    analyticsSummary [recW] tallyW = some summaryW ∧
    ((summaryW.daysCovered ≤ 0 → summaryW.avgDaily = none) ∧
      (0 < summaryW.daysCovered →
        summaryW.avgDaily =
          some (toFixed 6 (summaryW.totalXNT / (summaryW.daysCovered : ℚ)))) ∧
      (tallyW.totalEpochsProcessed = 0 →
        summaryW.percentageWithRewards = 0) ∧
      (tallyW.expectedEpochs = 0 →
        summaryW.percentageExpectedWithRewards = 0) ∧
      0 < summaryW.totalEpochsWithRewards ∧
      summaryW.avgPerEpoch =
        some (toFixed 6
          (summaryW.totalXNT / (summaryW.totalEpochsWithRewards : ℚ)))) := by
  have hd : dayFloor (86400 : ℤ) = 1 := by decide
  have hfix : toFixed 6 (2 : ℚ) = 2 :=
    toFixed_eq_self ⟨2000000, by norm_num⟩
  have hsum : analyticsSummary [recW] tallyW = some summaryW := by
    simp only [analyticsSummary, List.getLastD, recW, tallyW, summaryW, hd,
      List.map_cons, List.map_nil, List.sum_cons, List.sum_nil,
      List.length_cons, List.length_nil]
    norm_num [hfix]
  exact ⟨hsum, (claim8_amended [recW] tallyW).2 summaryW hsum⟩

/-- C9: every rewarded epoch's record stores `xntAmount` as the raw integer
amount divided by `10^9` rounded to 6-decimal fixed precision, and
`valueUSD` as the unrounded quotient times the price rounded to 4-decimal
fixed precision (and `priceUSD` at 6 decimals). -/
theorem claim9_numeric_conversion (env : ChainEnv) (c e : ℕ)
    (rw0 : InflationReward) (a : ℤ)
    (hq : env.query e = QueryResult.ok (some rw0))
    (ha : rw0.amount = some a) (hpos : 0 < a) :
    fetchSingleEpochReward env e c =
      some { epoch := e
             rewardDate := resolveTimestamp env c e rw0
             xntAmount := toFixed 6 ((a : ℚ) / 1000000000)
             priceUSD := toFixed 6 env.price
             valueUSD := toFixed 4 (((a : ℚ) / 1000000000) * env.price) } := by
  simp [fetchSingleEpochReward, hq, ha, hpos]

/-- Witness for C9 at `envRewardNoSlot`, epoch 1, current epoch 2. -/
theorem claim9_witness :
    envRewardNoSlot.query 1 =
      QueryResult.ok (some { amount := some 5, effectiveSlot := none }) ∧
    ((0 : ℤ) < 5) ∧
    fetchSingleEpochReward envRewardNoSlot 1 2 =
      some { epoch := 1
             rewardDate :=
               resolveTimestamp envRewardNoSlot 2 1
                 { amount := some 5, effectiveSlot := none }
             xntAmount := toFixed 6 ((5 : ℚ) / 1000000000)
             priceUSD := toFixed 6 envRewardNoSlot.price
             valueUSD :=
               toFixed 4 (((5 : ℚ) / 1000000000) * envRewardNoSlot.price) } :=
  ⟨rfl, by decide,
    claim9_numeric_conversion envRewardNoSlot 2 1
      { amount := some 5, effectiveSlot := none } 5 rfl rfl (by decide)⟩

/-- C10: the cumulative columns that `writeMainCsv` recomputes from scratch
coincide, record by record, with the `cumulativeXNT`/`cumulativeUSD` fields
already attached by `main` after sorting — the duplicate computation is an
exact refinement of the attached values. -/
theorem claim10_csv_refines_attached (env : ChainEnv) (c : ℕ)
    (m : Option ℕ) :
    (writeMainCsvRows (pipelineRecords env c m)).map
        (fun r => (r.cumulativeXNT, r.cumulativeUSD)) =
      (pipelineRecords env c m).map
        (fun r => (r.cumulativeXNT, r.cumulativeUSD)) :=
  csvRows_eq_attach_aux
    (sortChronological (fetchRewardsForEpochs env c m).rewards) 0 0

end X1
